import Mathlib

/-!
# Verification of the Elysion bot ledger and chinchiro wagering engine

Shallow embedding of the persistent-currency ledger (`database.py`,
`Database.update_balance` / `Database.get_balance`) and of the chinchiro
PvP wagering engine (`main.py`, the `Chinchiro` cog: `_get_stell`,
`_add_stell`, `_sub_stell`, `judge_roll`, `score_rank`,
`determine_outcome`, `pvp_payout_mult`, and the settlement loop of
`_execute_pvp`), together with theorems settling the frozen claims.

Modelling conventions:
* sqlite's `accounts` table is an association list keyed by `user_id`
  (lookup and update act on the first matching key);
* the `transactions` table is a list, appended at the tail (the
  autoincrement `id` corresponds to list position); the
  environment-supplied `created_at` timestamp is omitted and the
  `month_tag` (from `datetime.now()` in the source) is passed as a
  parameter;
* machine integers are `Int` (sqlite INTEGER is 64-bit, but every claim
  is about exact arithmetic far from overflow, and Python ints are
  unbounded);
* an `async` DB block that returns without committing discards its
  uncommitted writes (the connection is closed), so a failure path is
  modelled as returning the original state.
-/

namespace Elysion

/-- An `accounts` row: `balance INTEGER DEFAULT 0 CHECK(balance >= 0),
total_earned INTEGER DEFAULT 0` (`database.py`, `setup`). -/
structure Account where
  balance : Int
  total_earned : Int
deriving DecidableEq, Repr

/-- A `transactions` row as inserted by `Database.update_balance`
(`database.py`): `INSERT INTO transactions (receiver_id, amount, type,
description, batch_id, month_tag)`; `sender_id` is left NULL and
`created_at` (wall clock) is not modelled. -/
structure Txn where
  sender_id : Option Int
  receiver_id : Int
  amount : Int
  type : String
  batch_id : Option String
  month_tag : String
  description : String
deriving DecidableEq, Repr

/-- The shared database state: the `accounts` table (association list
keyed by `user_id`) and the append-only `transactions` table. -/
structure DBState where
  accounts : List (Int × Account)
  transactions : List Txn
deriving DecidableEq, Repr

/-- Lookup of an `accounts` row by `user_id` (first match), modelling
`SELECT ... FROM accounts WHERE user_id = ?`. -/
def getA : List (Int × Account) → Int → Option Account
  | [], _ => none
  | (k, a) :: rest, uid => if k = uid then some a else getA rest uid

/-- Write an `accounts` row by `user_id`: update the first matching row
in place, or insert a fresh row when absent. -/
def putA : List (Int × Account) → Int → Account → List (Int × Account)
  | [], uid, a => [(uid, a)]
  | (k, b) :: rest, uid, a =>
      if k = uid then (uid, a) :: rest else (k, b) :: putA rest uid a

/-- Embeds `Database.get_balance` (`database.py`): returns the row's balance,
or 0 when the account does not exist. -/
def get_balance (st : DBState) (user_id : Int) : Int :=
  match getA st.accounts user_id with
  | some row => row.balance
  | none => 0

/-- Observer for `total_earned`, defaulting to 0 for a missing account
(a freshly auto-created account starts at `total_earned = 0`). -/
def total_earned_of (st : DBState) (user_id : Int) : Int :=
  match getA st.accounts user_id with
  | some row => row.total_earned
  | none => 0

/-- Embeds `Database.update_balance` (`database.py`, lines 148-199), the
ledger's ApplyDelta.  Step 1 auto-creates the account
(`INSERT OR IGNORE ... VALUES (?, 0, 0)`); step 2, for a negative
`amount`, fails with `False` when `balance < abs(amount)` (the
uncommitted auto-insert is discarded with the connection); step 3 adds
`amount` to `balance` and `max(amount, 0)` to `total_earned`; step 4
appends one `transactions` row recording `amount` as-is (the source
comment notes a negative amount is stored signed, e.g. -500); then
commits and returns `True`.  `now_month` stands for
`datetime.datetime.now().strftime("%Y-%m")`. -/
def update_balance (st : DBState) (now_month : String) (user_id amount : Int)
    (transaction_type description : String) (batch_id : Option String) :
    Bool × DBState :=
  let accs :=
    match getA st.accounts user_id with
    | some _ => st.accounts
    | none => putA st.accounts user_id ⟨0, 0⟩
  let st1 : DBState := { st with accounts := accs }
  let short : Bool :=
    match getA st1.accounts user_id with
    | some row => decide (row.balance < abs amount)
    | none => true
  if amount < 0 ∧ short = true then
    (false, st)
  else
    let earn_add := if amount > 0 then amount else 0
    let row := (getA st1.accounts user_id).getD ⟨0, 0⟩
    let accs2 := putA st1.accounts user_id ⟨row.balance + amount, row.total_earned + earn_add⟩
    let st2 : DBState := { st1 with accounts := accs2 }
    let t : Txn :=
      { sender_id := none, receiver_id := user_id, amount := amount,
        type := transaction_type, batch_id := batch_id,
        month_tag := now_month, description := description }
    (true, { st2 with transactions := st2.transactions ++ [t] })

/-- Embeds `Chinchiro._get_stell` (`main.py`, line 2180): balance of a user,
0 when the account row is absent (same query as `get_balance`). -/
def _get_stell (st : DBState) (user_id : Int) : Int :=
  match getA st.accounts user_id with
  | some row => row.balance
  | none => 0

/-- Embeds `Chinchiro._add_stell` (`main.py`, lines 2186-2191):
`INSERT INTO accounts (user_id, balance, total_earned) VALUES (?, ?, 0)
ON CONFLICT(user_id) DO UPDATE SET balance = balance + excluded.balance`.
A raw upsert on `balance`: no transactions row, `total_earned` never
touched. -/
def _add_stell (st : DBState) (user_id amount : Int) : DBState :=
  match getA st.accounts user_id with
  | some a =>
      { st with accounts := putA st.accounts user_id ⟨a.balance + amount, a.total_earned⟩ }
  | none =>
      { st with accounts := putA st.accounts user_id ⟨amount, 0⟩ }

/-- Embeds `Chinchiro._sub_stell` (`main.py`, lines 2193-2201): reads the
balance, returns `False` untouched when `bal < amount`, otherwise runs
`UPDATE accounts SET balance = balance - ? WHERE user_id = ?` (a no-op
when the row is absent, which can only happen for `amount ≤ 0`). -/
def _sub_stell (st : DBState) (user_id amount : Int) : Bool × DBState :=
  let bal := _get_stell st user_id
  if bal < amount then
    (false, st)
  else
    match getA st.accounts user_id with
    | some a =>
        (true, { st with accounts := putA st.accounts user_id ⟨a.balance - amount, a.total_earned⟩ })
    | none => (true, st)

/- Association-list lemmas used throughout. -/

theorem getA_putA_self (l : List (Int × Account)) (uid : Int) (a : Account) :
    getA (putA l uid a) uid = some a := by
  induction l with
  | nil => simp [putA, getA]
  | cons p rest ih =>
      obtain ⟨k, b⟩ := p
      by_cases h : k = uid
      · simp [putA, getA, h]
      · simp [putA, getA, h, ih]

theorem getA_putA_ne (l : List (Int × Account)) (uid v : Int) (a : Account)
    (h : v ≠ uid) : getA (putA l uid a) v = getA l v := by
  induction l with
  | nil => simp [putA, getA, Ne.symm h]
  | cons p rest ih =>
      obtain ⟨k, b⟩ := p
      by_cases hk : k = uid
      · subst hk
        simp [putA, getA, Ne.symm h]
      · simp [putA, getA, hk, ih]

/-!
## DiceEngine (`main.py`, helper functions of the Chinchiro cog)
-/

/-- Sorted insertion, used to model Python's `sorted` on a dice list. -/
def insertSorted (x : Int) : List Int → List Int
  | [] => [x]
  | y :: ys => if x ≤ y then x :: y :: ys else y :: insertSorted x ys

/-- Python's `sorted(dice)` (ascending). -/
def pySorted (l : List Int) : List Int :=
  l.foldr insertSorted []

/-- Embeds `judge_roll` (`main.py`, lines 1818-1833).  Returns
`(role_name, score, mult)` with `mult`: `some 5` = pinzoro,
`some 3` = any other triple, `some 2` = shigoro (4-5-6),
`none` = one pair (scored by the singleton face),
`some (-1)` = hifumi (1-2-3), `some 0` = hachime (no result).
Python's `None` is `none`; the `counts` dict is expressed through
`List.count` and `List.dedup`. -/
def judge_roll (dice : List Int) : String × Int × Option Int :=
  let d := pySorted dice
  if d = [1, 1, 1] then ("🌟 ピンゾロ！", 100, some 5)
  else if dice.dedup.length = 1 then
    ("✨ ゾロ目(" ++ toString (d.headD 0) ++ ")", (d.headD 0) * 10 + 50, some 3)
  else if d = [4, 5, 6] then ("🔥 シゴロ！", 99, some 2)
  else if d = [1, 2, 3] then ("💀 ヒフミ…", (-1 : Int), some (-1))
  else if dice.any (fun v => dice.count v = 2) then
    match dice.filter (fun v => dice.count v = 1) with
    | [v] => ("🎯 目あり(" ++ toString v ++ ")", v, none)
    | _ => ("😶 ハチ目", 0, some 0)
  else ("😶 ハチ目", 0, some 0)

/-- Embeds `score_rank` (`main.py`, lines 1847-1853): maps `(mult, score)` to
the comparable `(category, tiebreak)` pair. -/
def score_rank (mult : Option Int) (score : Int) : Int × Int :=
  if mult = some 5 then (5, score)
  else if mult = some 3 then (3, score)
  else if mult = some 2 then (2, score)
  else if mult = none then (1, score)
  else if mult = some (-1) then ((-1 : Int), 0)
  else (0, 0)

/-- Strict lexicographic order on `(category, tiebreak)` pairs: Python's
tuple comparison `<` used by `determine_outcome`. -/
def tupLt (p q : Int × Int) : Prop :=
  p.1 < q.1 ∨ (p.1 = q.1 ∧ p.2 < q.2)

instance (p q : Int × Int) : Decidable (tupLt p q) := by
  unfold tupLt
  infer_instance

/-- The three possible results of comparing a child's roll against the
host's (the string constants of `determine_outcome`). -/
inductive Outcome
  | child_win
  | host_win
  | draw
deriving DecidableEq, Repr

/-- Embeds `determine_outcome` (`main.py`, lines 1855-1861): outcome seen from
the child, via Python tuple comparison of the two `score_rank` pairs. -/
def determine_outcome (h_mult : Option Int) (h_score : Int)
    (c_mult : Option Int) (c_score : Int) : Outcome :=
  let h := score_rank h_mult h_score
  let c := score_rank c_mult c_score
  if tupLt h c then .child_win
  else if tupLt c h then .host_win
  else .draw

/-- Embeds `pvp_payout_mult` (`main.py`, lines 1863-1868): the net profit
multiplier of a winning child in PvP. -/
def pvp_payout_mult (mult : Option Int) : Int :=
  if mult = some 5 then 5
  else if mult = some 3 then 3
  else if mult = some 2 then 2
  else 1

/-!
## SettlementEngine (`main.py`, `Chinchiro._execute_pvp`, lines 2248-2443)
-/

/-- A child's dice result entering settlement: either the pre-roll
forced loss (`child_shonbens[m.id] = True`, stored as score `-999`,
mult `-2` and never compared), or the final `(mult, score)` pair of
`roll_until_role`. -/
inductive PRoll
  | shonben
  | rolled (mult : Option Int) (score : Int)
deriving DecidableEq, Repr

/-- State threaded through the settlement loop of `_execute_pvp`
(lines 2342-2385): the database connection, the running `host_pool`,
and the loop's bookkeeping (`win_members` actual wins, `lose_members`
and `draw_members` counts).  `payouts` records, per child in roster
order, the amount passed to `_add_stell` for that child (0 when the
branch credits nothing); it makes the credited amounts addressable by
position. -/
structure PvpSt where
  db : DBState
  host_pool : Int
  win_bonuses : List Int
  lose_count : Int
  draw_count : Int
  payouts : List Int
deriving Repr

/-- One iteration of the settlement loop (`for m in s.players`, lines
2343-2385): a shonben child is a loser with no credit; otherwise the
child is compared to the host with `determine_outcome`; a winner gets
`bet + min(bet * pvp_payout_mult(mult), host_pool)` credited and the
pool shrinks by the actual win before the next child; a loser gets
nothing; a draw gets exactly `bet` back. -/
def settle_step (bet : Int) (h_mult : Option Int) (h_score : Int)
    (acc : PvpSt) (child : Int × PRoll) : PvpSt :=
  match child.2 with
  | .shonben =>
      { acc with lose_count := acc.lose_count + 1, payouts := acc.payouts ++ [0] }
  | .rolled mult score =>
      match determine_outcome h_mult h_score mult score with
      | .child_win =>
          let raw_win := bet * pvp_payout_mult mult
          let actual_win := min raw_win acc.host_pool
          let payout := bet + actual_win
          { acc with
              db := _add_stell acc.db child.1 payout,
              host_pool := acc.host_pool - actual_win,
              win_bonuses := acc.win_bonuses ++ [actual_win],
              payouts := acc.payouts ++ [payout] }
      | .host_win =>
          { acc with lose_count := acc.lose_count + 1, payouts := acc.payouts ++ [0] }
      | .draw =>
          { acc with
              db := _add_stell acc.db child.1 bet,
              draw_count := acc.draw_count + 1,
              payouts := acc.payouts ++ [bet] }

/-- The full settlement loop over the roster in join order, starting
from `host_pool = bet * num_children` (line 2340). -/
def settle_children (bet : Int) (h_mult : Option Int) (h_score : Int)
    (db0 : DBState) (children : List (Int × PRoll)) : PvpSt :=
  children.foldl (settle_step bet h_mult h_score)
    ⟨db0, bet * (children.length : Int), [], 0, 0, []⟩

/-- Host settlement (`main.py`, lines 2387-2393):
`host_return = bet + total_lost - total_won`, credited only when
positive. -/
def host_return (bet total_lost total_won : Int) : Int :=
  bet + total_lost - total_won

/-- The whole fund-moving settlement batch of `_execute_pvp` (lines
2342-2395, one `db.commit()` at the end): the per-child loop followed
by the host's conditional credit. -/
def settlement_batch (db0 : DBState) (bet : Int) (h_mult : Option Int)
    (h_score : Int) (host : Int) (children : List (Int × PRoll)) : DBState :=
  let st := settle_children bet h_mult h_score db0 children
  let total_won := st.win_bonuses.sum
  let total_lost := st.lose_count * bet
  let hr := host_return bet total_lost total_won
  if hr > 0 then _add_stell st.db host hr else st.db

/-- The stake-and-fee debit batch of `_execute_pvp` (lines 2267-2271,
one `db.commit()` at the end): `_sub_stell(m, bet + venue_fee)` over
`all_members = [host] + players`, with the returned success flag
ignored, exactly as in the source. -/
def stake_debit_batch (db0 : DBState) (bet venue_fee : Int)
    (members : List Int) : DBState :=
  members.foldl (fun d m => (_sub_stell d m (bet + venue_fee)).2) db0

/-- The sequence of committed database states produced by a normal
(no host shonben) `_execute_pvp` round: the state before any movement,
the state committed by the stake-debit batch (line 2271), and the state
committed by the settlement batch (line 2395).  The dice animation,
with its awaited sleeps, runs between the two commits. -/
def execute_pvp_commits (db0 : DBState) (bet venue_fee : Int) (host : Int)
    (children : List (Int × PRoll)) (h_mult : Option Int) (h_score : Int) :
    List DBState :=
  let db1 := stake_debit_batch db0 bet venue_fee (host :: children.map Prod.fst)
  let db2 := settlement_batch db1 bet h_mult h_score host children
  [db0, db1, db2]

/-- Specification-side payout rule, written from the spec's words
(§4.4 payout rule / claim C6): given the remaining pool, a winner
receives `bet + min(bet × categoryMultiplier, remaining pool)`, a draw
receives exactly `bet`, a loser (including a forced loss) receives
nothing. -/
def spec_payout (bet : Int) (h_mult : Option Int) (h_score : Int)
    (remaining_pool : Int) : PRoll → Int
  | .shonben => 0
  | .rolled mult score =>
      match determine_outcome h_mult h_score mult score with
      | .child_win => bet + min (bet * pvp_payout_mult mult) remaining_pool
      | .host_win => 0
      | .draw => bet

/-!
## WageringSession phase machine (`ChinchiroSession.phase` in `main.py`)
-/

/-- The session phases.  The source stores `"recruiting"` and
`"rolling"` in `ChinchiroSession.phase`; `settled` models the terminal
removal of the session from `Chinchiro.sessions` (the registry), which
is how the source ends a round. -/
inductive Phase
  | recruiting
  | rolling
  | settled
deriving DecidableEq, Repr

/-- The events that change a session's phase or registry entry:
`start_pressed` is the host's start button (line 2115,
`s.phase = "rolling"`); `recheck broke` is the balance re-check at the
top of `_execute_pvp` (lines 2253-2265), whose `broke` flag says
whether some participant is short of `bet + venue_fee`; on `true` the
source runs `s.phase = "recruiting"` (line 2261); `round_completed` is
the deletion of the session after settlement (or after a host
shonben); `timeout_or_cancel` is the recruit view timeout or the
cancel command, both of which delete the session. -/
inductive ChinEvent
  | start_pressed
  | recheck (broke : Bool)
  | round_completed
  | timeout_or_cancel
deriving DecidableEq, Repr

/-- The phase transition function of one session, read off the source:
any pair not listed is rejected without a state change (for example the
start button answers an error unless the phase is `recruiting`,
line 2105). -/
def chinStep : Phase → ChinEvent → Option Phase
  | .recruiting, .start_pressed => some .rolling
  | .rolling, .recheck true => some .recruiting
  | .rolling, .recheck false => some .rolling
  | .rolling, .round_completed => some .settled
  | .recruiting, .timeout_or_cancel => some .settled
  | .rolling, .timeout_or_cancel => some .settled
  | _, _ => none

/-- Run a list of events from a phase; `none` when some event is
rejected. -/
def runEvents : Phase → List ChinEvent → Option Phase
  | p, [] => some p
  | p, e :: es =>
      match chinStep p e with
      | some q => runEvents q es
      | none => none

/-- The `broke` computation of `_execute_pvp` (lines 2253-2258): some
member's balance is below `bet + venue_fee`. -/
def brokeCheck (balances : Int → Int) (members : List Int)
    (bet venue_fee : Int) : Bool :=
  members.any (fun m => balances m < bet + venue_fee)

/-!
## Claim C1 — `update_balance` success postcondition
-/

/-- C1 (counterexample): the claim as frozen says the appended
Transaction row's `amount` equals `|d|`.  On the concrete call
`update_balance` with delta `-500` against a balance of 1000, the call
succeeds and the single appended row records `-500`, not
`|-500| = 500` (the source comment states the negative amount is
stored as-is). -/
theorem update_balance_amount_not_abs :
    (update_balance ⟨[(7, ⟨1000, 0⟩)], []⟩ "2025-01" 7 (-500) "PAY" "d" none).1 = true ∧
    ((update_balance ⟨[(7, ⟨1000, 0⟩)], []⟩ "2025-01" 7 (-500) "PAY" "d" none).2.transactions.map
      (fun t => t.amount)) = [(-500 : Int)] ∧
    abs (-500 : Int) = 500 ∧ ((-500 : Int) ≠ 500) := by
  refine ⟨by decide, by decide, by decide, by decide⟩

/-- C1 (amended): for every successful `update_balance` call with delta
`amt`, the new balance is the old balance plus `amt`, `total_earned`
grows by `max(amt, 0)`, and exactly one Transaction row is appended —
whose `amount` field equals `amt` itself (signed; it equals `|amt|`
only for `amt ≥ 0`). -/
theorem update_balance_success_spec (st : DBState) (mt : String) (uid amt : Int)
    (ty de : String) (ba : Option String)
    (h : (update_balance st mt uid amt ty de ba).1 = true) :
    _get_stell ((update_balance st mt uid amt ty de ba).2) uid
      = _get_stell st uid + amt ∧
    total_earned_of ((update_balance st mt uid amt ty de ba).2) uid
      = total_earned_of st uid + max amt 0 ∧
    ((update_balance st mt uid amt ty de ba).2).transactions
      = st.transactions ++
        [{ sender_id := none, receiver_id := uid, amount := amt, type := ty,
           batch_id := ba, month_tag := mt, description := de }] := by
  have hmax : (if amt > 0 then amt else 0) = max amt 0 := by
    by_cases hp : amt > 0
    · simp [hp, max_eq_left (le_of_lt hp)]
    · simp [hp, max_eq_right (le_of_not_lt hp)]
  rcases hacc : getA st.accounts uid with _ | a
  · by_cases hcond : amt < 0 ∧
        (decide ((0 : Int) < abs amt) : Bool) = true
    · exfalso
      rw [update_balance] at h
      simp only [hacc, getA_putA_self] at h
      rw [if_pos hcond] at h
      exact Bool.false_ne_true h
    · rw [update_balance]
      simp only [hacc, getA_putA_self]
      rw [if_neg hcond]
      refine ⟨?_, ?_, by simp⟩
      · simp [_get_stell, hacc, getA_putA_self]
      · simp [total_earned_of, hacc, getA_putA_self, hmax]
  · by_cases hcond : amt < 0 ∧
        (decide (a.balance < abs amt) : Bool) = true
    · exfalso
      rw [update_balance] at h
      simp only [hacc] at h
      rw [if_pos hcond] at h
      exact Bool.false_ne_true h
    · rw [update_balance]
      simp only [hacc]
      rw [if_neg hcond]
      refine ⟨?_, ?_, by simp⟩
      · simp [_get_stell, hacc, getA_putA_self]
      · simp [total_earned_of, hacc, getA_putA_self, hmax]

/-- C1 witness: the amended theorem applied at a concrete debit of 500
from a balance of 1000. -/
theorem update_balance_success_spec_witness :
    _get_stell ((update_balance ⟨[(7, ⟨1000, 0⟩)], []⟩ "2025-01" 7 (-500) "PAY" "d" none).2) 7
      = _get_stell ⟨[(7, ⟨1000, 0⟩)], []⟩ 7 + (-500) ∧
    total_earned_of ((update_balance ⟨[(7, ⟨1000, 0⟩)], []⟩ "2025-01" 7 (-500) "PAY" "d" none).2) 7
      = total_earned_of ⟨[(7, ⟨1000, 0⟩)], []⟩ 7 + max (-500) 0 ∧
    ((update_balance ⟨[(7, ⟨1000, 0⟩)], []⟩ "2025-01" 7 (-500) "PAY" "d" none).2).transactions
      = (⟨[(7, ⟨1000, 0⟩)], []⟩ : DBState).transactions ++
        [{ sender_id := none, receiver_id := 7, amount := -500, type := "PAY",
           batch_id := none, month_tag := "2025-01", description := "d" }] :=
  update_balance_success_spec ⟨[(7, ⟨1000, 0⟩)], []⟩ "2025-01" 7 (-500) "PAY" "d" none (by decide)

/-!
## Claim C2 — insufficient funds leaves the account untouched
-/

/-- C2: a debit attempt whose requested amount exceeds the current
balance fails and leaves the whole state untouched, in both debit
paths: `update_balance` with a negative delta returns `(False, st)`
(no balance change, no `total_earned` change, no Transaction row), and
the session engine's `_sub_stell` likewise returns `False` with the
state unchanged. -/
theorem debit_insufficient_rejected :
    (∀ (st : DBState) (mt : String) (uid amt : Int) (ty de : String)
        (ba : Option String), amt < 0 → _get_stell st uid < abs amt →
        update_balance st mt uid amt ty de ba = (false, st)) ∧
    (∀ (st : DBState) (uid amt : Int),
        _get_stell st uid < amt → _sub_stell st uid amt = (false, st)) := by
  constructor
  · intro st mt uid amt ty de ba hneg hshort
    rcases hacc : getA st.accounts uid with _ | a
    · rw [update_balance]
      simp only [hacc, getA_putA_self]
      rw [if_pos]
      refine ⟨hneg, ?_⟩
      simp only [decide_eq_true_eq]
      simpa [_get_stell, hacc] using hshort
    · rw [update_balance]
      simp only [hacc]
      rw [if_pos]
      refine ⟨hneg, ?_⟩
      simp only [decide_eq_true_eq]
      simpa [_get_stell, hacc] using hshort
  · intro st uid amt hshort
    rw [_sub_stell]
    simp [hshort]

/-- C2 witness: both rejection paths applied to an account with
balance 0 and a requested debit of 10. -/
theorem debit_insufficient_rejected_witness :
    update_balance ⟨[], []⟩ "2025-01" 3 (-10) "T" "d" none = (false, ⟨[], []⟩) ∧
    _sub_stell ⟨[], []⟩ 3 10 = (false, ⟨[], []⟩) :=
  ⟨debit_insufficient_rejected.1 ⟨[], []⟩ "2025-01" 3 (-10) "T" "d" none
      (by decide) (by decide),
   debit_insufficient_rejected.2 ⟨[], []⟩ 3 10 (by decide)⟩

/-!
## Helper lemmas on the settlement loop and the stell primitives
-/

theorem add_stell_transactions (st : DBState) (uid amt : Int) :
    (_add_stell st uid amt).transactions = st.transactions := by
  rcases hacc : getA st.accounts uid with _ | a <;> simp [_add_stell, hacc]

theorem sub_stell_transactions (st : DBState) (uid amt : Int) :
    ((_sub_stell st uid amt).2).transactions = st.transactions := by
  rw [_sub_stell]
  by_cases hb : _get_stell st uid < amt
  · simp [hb]
  · rcases hacc : getA st.accounts uid with _ | a <;> simp [hb, hacc]

theorem settle_step_transactions (bet : Int) (hm : Option Int) (hs : Int)
    (acc : PvpSt) (c : Int × PRoll) :
    (settle_step bet hm hs acc c).db.transactions = acc.db.transactions := by
  rcases c with ⟨pid, r⟩
  cases r with
  | shonben => simp [settle_step]
  | rolled m s =>
      cases ho : determine_outcome hm hs m s <;>
        simp [settle_step, ho, add_stell_transactions]

theorem settle_loop_transactions (bet : Int) (hm : Option Int) (hs : Int)
    (l : List (Int × PRoll)) :
    ∀ acc : PvpSt,
      (l.foldl (settle_step bet hm hs) acc).db.transactions = acc.db.transactions := by
  induction l with
  | nil => intro acc; rfl
  | cons c rest ih =>
      intro acc
      rw [List.foldl_cons, ih, settle_step_transactions]

theorem stake_debit_transactions (bet venue_fee : Int) (members : List Int) :
    ∀ db0 : DBState,
      (stake_debit_batch db0 bet venue_fee members).transactions = db0.transactions := by
  induction members with
  | nil => intro db0; rfl
  | cons m rest ih =>
      intro db0
      rw [stake_debit_batch, List.foldl_cons]
      have := ih ((_sub_stell db0 m (bet + venue_fee)).2)
      rw [stake_debit_batch] at this
      rw [this, sub_stell_transactions]

theorem settlement_batch_transactions (db0 : DBState) (bet : Int)
    (hm : Option Int) (hs : Int) (host : Int) (children : List (Int × PRoll)) :
    (settlement_batch db0 bet hm hs host children).transactions = db0.transactions := by
  rw [settlement_batch]
  by_cases hr : host_return bet
      ((settle_children bet hm hs db0 children).lose_count * bet)
      (settle_children bet hm hs db0 children).win_bonuses.sum > 0
  · simp only [hr, if_pos]
    rw [add_stell_transactions, settle_children, settle_loop_transactions]
  · simp only [hr, if_neg, if_false]
    rw [settle_children, settle_loop_transactions]

/-- Conservation bookkeeping of the settlement loop: the sum of the
recorded actual wins plus the remaining pool is invariant, and the pool
never goes negative once nonnegative. -/
theorem settle_loop_acct (bet : Int) (hm : Option Int) (hs : Int)
    (l : List (Int × PRoll)) :
    ∀ acc : PvpSt,
      (l.foldl (settle_step bet hm hs) acc).win_bonuses.sum
          + (l.foldl (settle_step bet hm hs) acc).host_pool
        = acc.win_bonuses.sum + acc.host_pool ∧
      (0 ≤ acc.host_pool → 0 ≤ (l.foldl (settle_step bet hm hs) acc).host_pool) := by
  induction l with
  | nil => intro acc; exact ⟨rfl, fun h => h⟩
  | cons c rest ih =>
      intro acc
      rw [List.foldl_cons]
      have hstep1 : (settle_step bet hm hs acc c).win_bonuses.sum
            + (settle_step bet hm hs acc c).host_pool
          = acc.win_bonuses.sum + acc.host_pool := by
        rcases c with ⟨pid, r⟩
        cases r with
        | shonben => simp [settle_step]
        | rolled m s =>
            cases ho : determine_outcome hm hs m s with
            | child_win => simp [settle_step, ho, List.sum_append]
            | host_win => simp [settle_step, ho]
            | draw => simp [settle_step, ho]
      have hstep2 : 0 ≤ acc.host_pool →
          0 ≤ (settle_step bet hm hs acc c).host_pool := by
        intro h0
        rcases c with ⟨pid, r⟩
        cases r with
        | shonben => simpa [settle_step] using h0
        | rolled m s =>
            cases ho : determine_outcome hm hs m s with
            | child_win =>
                simp only [settle_step, ho]
                have := min_le_right (bet * pvp_payout_mult m) acc.host_pool
                omega
            | host_win => simpa [settle_step, ho] using h0
            | draw => simpa [settle_step, ho] using h0
      obtain ⟨s1, s2⟩ := ih (settle_step bet hm hs acc c)
      exact ⟨by rw [s1, hstep1], fun h0 => s2 (hstep2 h0)⟩

/-- Every iteration of the settlement loop appends exactly one entry to
the per-child payout record. -/
theorem settle_loop_payouts_len (bet : Int) (hm : Option Int) (hs : Int)
    (l : List (Int × PRoll)) :
    ∀ acc : PvpSt,
      (l.foldl (settle_step bet hm hs) acc).payouts.length
        = acc.payouts.length + l.length := by
  induction l with
  | nil => intro acc; simp
  | cons c rest ih =>
      intro acc
      rw [List.foldl_cons, ih]
      have hstep : (settle_step bet hm hs acc c).payouts.length
          = acc.payouts.length + 1 := by
        rcases c with ⟨pid, r⟩
        cases r with
        | shonben => simp [settle_step]
        | rolled m s =>
            cases ho : determine_outcome hm hs m s <;> simp [settle_step, ho]
      rw [hstep]
      simp [List.length_cons]
      omega

/-!
## Claim C3 — atomicity of a round's fund movements
-/

/-- C3 (evaluation at the failing input): the round's fund movements
are committed as two separate database transactions.  On the concrete
round host 1 / player 2 (balances 2000, bet 1000, fee 30, player's
miari 4 beating the host's hachime), the stake-debit commit (line 2271)
produces an observable state, distinct from both the initial and the
final one, in which every participant has been debited 1030 while no
payout has been applied; only the second commit (line 2395) pays the
winner, seconds of awaited animation later, and no code path rolls the
first commit back. -/
theorem settlement_not_single_atomic_batch :
    ((execute_pvp_commits ⟨[(1, ⟨2000, 0⟩), (2, ⟨2000, 0⟩)], []⟩ 1000 30 1
        [(2, .rolled none 4)] (some 0) 0).length = 3) ∧
    (_get_stell ((execute_pvp_commits ⟨[(1, ⟨2000, 0⟩), (2, ⟨2000, 0⟩)], []⟩ 1000 30 1
        [(2, .rolled none 4)] (some 0) 0).getD 1 ⟨[], []⟩) 1 = 970) ∧
    (_get_stell ((execute_pvp_commits ⟨[(1, ⟨2000, 0⟩), (2, ⟨2000, 0⟩)], []⟩ 1000 30 1
        [(2, .rolled none 4)] (some 0) 0).getD 1 ⟨[], []⟩) 2 = 970) ∧
    (_get_stell ((execute_pvp_commits ⟨[(1, ⟨2000, 0⟩), (2, ⟨2000, 0⟩)], []⟩ 1000 30 1
        [(2, .rolled none 4)] (some 0) 0).getD 2 ⟨[], []⟩) 2 = 2970) ∧
    ((execute_pvp_commits ⟨[(1, ⟨2000, 0⟩), (2, ⟨2000, 0⟩)], []⟩ 1000 30 1
        [(2, .rolled none 4)] (some 0) 0).getD 1 ⟨[], []⟩
      ≠ ⟨[(1, ⟨2000, 0⟩), (2, ⟨2000, 0⟩)], []⟩) ∧
    ((execute_pvp_commits ⟨[(1, ⟨2000, 0⟩), (2, ⟨2000, 0⟩)], []⟩ 1000 30 1
        [(2, .rolled none 4)] (some 0) 0).getD 1 ⟨[], []⟩
      ≠ (execute_pvp_commits ⟨[(1, ⟨2000, 0⟩), (2, ⟨2000, 0⟩)], []⟩ 1000 30 1
        [(2, .rolled none 4)] (some 0) 0).getD 2 ⟨[], []⟩) := by
  refine ⟨rfl, by decide, by decide, by decide, by decide, by decide⟩

/-!
## Claim C4 — closed-round conservation
-/

/-- C4 (evaluation at the failing input): with bet 1000 (fee 30), two
players who both roll shigoro against a hachime host, both are
classified winners; the first winner drains the whole pool
(actual bonus 2000), the second gets bonus 0, there are no losers, and
`host_return = 1000 + 0 - 2000 = -1000` is negative, so the host-side
debt is silently dropped (`if host_return > 0`).  The sum of all
participants' balance deltas plus the venue-fee burn is then 1000, not
0: the round mints 1000 Stell, contradicting the claim (and the
source's own "zero-sum settlement" comment, line 2331). -/
theorem pvp_round_mints_currency :
    ((_get_stell ((execute_pvp_commits ⟨[(1, ⟨5000, 0⟩), (2, ⟨5000, 0⟩), (3, ⟨5000, 0⟩)], []⟩
          1000 30 1 [(2, .rolled (some 2) 99), (3, .rolled (some 2) 99)] (some 0) 0).getD 2
          ⟨[], []⟩) 1 - 5000)
      + (_get_stell ((execute_pvp_commits ⟨[(1, ⟨5000, 0⟩), (2, ⟨5000, 0⟩), (3, ⟨5000, 0⟩)], []⟩
          1000 30 1 [(2, .rolled (some 2) 99), (3, .rolled (some 2) 99)] (some 0) 0).getD 2
          ⟨[], []⟩) 2 - 5000)
      + (_get_stell ((execute_pvp_commits ⟨[(1, ⟨5000, 0⟩), (2, ⟨5000, 0⟩), (3, ⟨5000, 0⟩)], []⟩
          1000 30 1 [(2, .rolled (some 2) 99), (3, .rolled (some 2) 99)] (some 0) 0).getD 2
          ⟨[], []⟩) 3 - 5000)
      + 3 * 30 = 1000) ∧ (1000 : Int) ≠ 0 := by
  refine ⟨by decide, by decide⟩

/-!
## Claim C9 — every movement recorded in the transaction log
-/

/-- C9 (counterexample): a concrete completed round moves funds (the
winning player's balance goes from 2000 to 2970 through debit and
payout) while the `transactions` table stays empty — the wagering round
writes balances through `_add_stell`/`_sub_stell`, which never insert a
Transaction row. -/
theorem pvp_round_moves_funds_without_txn_rows :
    (_get_stell ((execute_pvp_commits ⟨[(5, ⟨2000, 0⟩), (6, ⟨2000, 0⟩)], []⟩ 1000 30 5
        [(6, .rolled none 4)] (some 0) 0).getD 2 ⟨[], []⟩) 6
      ≠ _get_stell ⟨[(5, ⟨2000, 0⟩), (6, ⟨2000, 0⟩)], []⟩ 6) ∧
    ((execute_pvp_commits ⟨[(5, ⟨2000, 0⟩), (6, ⟨2000, 0⟩)], []⟩ 1000 30 5
        [(6, .rolled none 4)] (some 0) 0).getD 2 ⟨[], []⟩).transactions = [] := by
  refine ⟨by decide, by decide⟩

/-- C9 (amended): no balance movement of the wagering round appends any
Transaction row: `_add_stell`, `_sub_stell`, the stake-debit batch and
the settlement batch all leave the `transactions` table exactly as it
was, so every committed state of a round carries the initial table. -/
theorem pvp_round_appends_no_txn_rows :
    (∀ (st : DBState) (uid amt : Int),
        (_add_stell st uid amt).transactions = st.transactions) ∧
    (∀ (st : DBState) (uid amt : Int),
        ((_sub_stell st uid amt).2).transactions = st.transactions) ∧
    (∀ (db0 : DBState) (bet fee : Int) (members : List Int),
        (stake_debit_batch db0 bet fee members).transactions = db0.transactions) ∧
    (∀ (db0 : DBState) (bet : Int) (hm : Option Int) (hs : Int) (host : Int)
        (children : List (Int × PRoll)),
        (settlement_batch db0 bet hm hs host children).transactions
          = db0.transactions) ∧
    (∀ (db0 : DBState) (bet fee host : Int) (children : List (Int × PRoll))
        (hm : Option Int) (hs : Int),
        (execute_pvp_commits db0 bet fee host children hm hs).map
            (fun d => d.transactions)
          = [db0.transactions, db0.transactions, db0.transactions]) := by
  refine ⟨add_stell_transactions, sub_stell_transactions,
    fun db0 bet fee members => stake_debit_transactions bet fee members db0,
    settlement_batch_transactions, ?_⟩
  intro db0 bet fee host children hm hs
  rw [execute_pvp_commits]
  simp only [List.map_cons, List.map_nil]
  rw [settlement_batch_transactions, stake_debit_transactions]

/-!
## Claim C10 — `_add_stell` touches only the balance
-/

/-- C10: a credit through `_add_stell` changes exactly the target
account's `balance` (by the credited amount), leaves every account's
`total_earned` unchanged (a freshly created account starts at 0, the
modelled value of a missing account), and appends nothing to the
transaction log — unlike `update_balance`, a positive wagering credit
never increases `total_earned`. -/
theorem add_stell_only_balance (st : DBState) (uid amt v : Int) :
    (_add_stell st uid amt).transactions = st.transactions ∧
    _get_stell (_add_stell st uid amt) v
      = _get_stell st v + (if v = uid then amt else 0) ∧
    total_earned_of (_add_stell st uid amt) v = total_earned_of st v := by
  refine ⟨add_stell_transactions st uid amt, ?_, ?_⟩
  · rcases hacc : getA st.accounts uid with _ | a
    · rw [_add_stell]
      simp only [hacc]
      by_cases hv : v = uid
      · subst hv
        simp [_get_stell, hacc, getA_putA_self]
      · simp [_get_stell, getA_putA_ne _ _ _ _ hv, hv]
    · rw [_add_stell]
      simp only [hacc]
      by_cases hv : v = uid
      · subst hv
        simp [_get_stell, hacc, getA_putA_self]
      · simp [_get_stell, getA_putA_ne _ _ _ _ hv, hv]
  · rcases hacc : getA st.accounts uid with _ | a
    · rw [_add_stell]
      simp only [hacc]
      by_cases hv : v = uid
      · subst hv
        simp [total_earned_of, hacc, getA_putA_self]
      · simp [total_earned_of, getA_putA_ne _ _ _ _ hv]
    · rw [_add_stell]
      simp only [hacc]
      by_cases hv : v = uid
      · subst hv
        simp [total_earned_of, hacc, getA_putA_self]
      · simp [total_earned_of, getA_putA_ne _ _ _ _ hv]

/-!
## Claim C5 — pool cap and host loss bound
-/

/-- C5 (counterexample): the claim bounds the paid bonuses by
`bet × (number of losers)`.  With bet 1000 and two players who both
roll shigoro against a hachime host there are no losers, yet the
bonuses actually paid sum to 2000 — the code's pool is
`bet × (number of players)` (line 2340), not `bet × losers`. -/
theorem pvp_bonuses_exceed_losers_cap :
    ((settle_children 1000 (some 0) 0 ⟨[], []⟩
        [(2, .rolled (some 2) 99), (3, .rolled (some 2) 99)]).win_bonuses.sum = 2000) ∧
    ((settle_children 1000 (some 0) 0 ⟨[], []⟩
        [(2, .rolled (some 2) 99), (3, .rolled (some 2) 99)]).lose_count = 0) ∧
    ¬ ((settle_children 1000 (some 0) 0 ⟨[], []⟩
        [(2, .rolled (some 2) 99), (3, .rolled (some 2) 99)]).win_bonuses.sum
      ≤ 1000 * (settle_children 1000 (some 0) 0 ⟨[], []⟩
        [(2, .rolled (some 2) 99), (3, .rolled (some 2) 99)]).lose_count) := by
  refine ⟨by decide, by decide, by decide⟩

/-- C5 (amended): for every PvP round with a positive bet, the sum of
the actual bonuses paid to winning players is at most
`bet × (number of players)` (the code's pool, initialised at line 2340
— not `bet × losers` as the claim had it), and the host's settlement
net excluding the venue fee, `-bet` staked plus the conditional
`host_return` credit, is bounded below by `-bet`: the host can never be
debited beyond the ante. -/
theorem pvp_pool_cap_amended (bet : Int) (hm : Option Int) (hs : Int)
    (db0 : DBState) (children : List (Int × PRoll)) (hbet : 0 < bet) :
    (settle_children bet hm hs db0 children).win_bonuses.sum
      ≤ bet * (children.length : Int) ∧
    -bet + (if host_return bet
          ((settle_children bet hm hs db0 children).lose_count * bet)
          (settle_children bet hm hs db0 children).win_bonuses.sum > 0
        then host_return bet
          ((settle_children bet hm hs db0 children).lose_count * bet)
          (settle_children bet hm hs db0 children).win_bonuses.sum
        else 0)
      ≥ -bet := by
  constructor
  · have hacct := settle_loop_acct bet hm hs children
      ⟨db0, bet * (children.length : Int), [], 0, 0, []⟩
    have hpool0 : (0 : Int) ≤ bet * (children.length : Int) :=
      mul_nonneg (le_of_lt hbet) (Int.natCast_nonneg _)
    obtain ⟨hsum, hnn⟩ := hacct
    have hnn2 := hnn hpool0
    rw [settle_children]
    simp only [List.sum_nil] at hsum
    omega
  · by_cases hr : host_return bet
        ((settle_children bet hm hs db0 children).lose_count * bet)
        (settle_children bet hm hs db0 children).win_bonuses.sum > 0
    · rw [if_pos hr]
      omega
    · rw [if_neg hr]
      omega

/-- C5 witness: the amended bound applied to a one-player round (bet
1000, the player's miari 4 beats the hachime host). -/
theorem pvp_pool_cap_amended_witness :
    (settle_children 1000 (some 0) 0 ⟨[], []⟩
        [(2, .rolled none 4)]).win_bonuses.sum
      ≤ 1000 * (([(2, PRoll.rolled none 4)] : List (Int × PRoll)).length : Int) ∧
    -(1000 : Int) + (if host_return 1000
          ((settle_children 1000 (some 0) 0 ⟨[], []⟩
            [(2, .rolled none 4)]).lose_count * 1000)
          (settle_children 1000 (some 0) 0 ⟨[], []⟩
            [(2, .rolled none 4)]).win_bonuses.sum > 0
        then host_return 1000
          ((settle_children 1000 (some 0) 0 ⟨[], []⟩
            [(2, .rolled none 4)]).lose_count * 1000)
          (settle_children 1000 (some 0) 0 ⟨[], []⟩
            [(2, .rolled none 4)]).win_bonuses.sum
        else 0)
      ≥ -(1000 : Int) :=
  pvp_pool_cap_amended 1000 (some 0) 0 ⟨[], []⟩ [(2, .rolled none 4)] (by decide)

/-!
## Claim C6 — the payout algorithm, child by child in roster order
-/

/-- The state of the settlement loop after the first `i` iterations:
the fold of `settle_step` over the first `i` children, from the initial
state with `host_pool = bet * (number of players)` (line 2340).  At
`i = number of players` this is exactly `settle_children`. -/
def settle_first (bet : Int) (hm : Option Int) (hs : Int) (db0 : DBState)
    (children : List (Int × PRoll)) (i : Nat) : PvpSt :=
  (children.take i).foldl (settle_step bet hm hs)
    ⟨db0, bet * (children.length : Int), [], 0, 0, []⟩

/-- C6: the settlement loop realises the spec's payout rule.  For every
round and every roster position `i`: after processing the first `i`
children the loop has recorded exactly `i` payouts and its remaining
pool equals `bet × (number of players)` (the initial pool) minus the
bonuses already paid to earlier winners; processing child `i` then
appends exactly the spec-side payout at that remaining pool — a winner
receives `bet + min(bet × categoryMultiplier, remaining pool)` (the
pool shrinking accordingly, by the same accounting identity at
`i + 1`), a draw receives exactly `bet`, a loser nothing.  The last
conjunct records that the complete settlement is the prefix fold run
over the whole roster in join order. -/
theorem pvp_payout_roster_order (bet : Int) (hm : Option Int) (hs : Int)
    (db0 : DBState) (children : List (Int × PRoll)) (i : Nat)
    (hi : i < children.length) :
    (settle_first bet hm hs db0 children i).payouts.length = i ∧
    (settle_first bet hm hs db0 children i).host_pool
      = bet * (children.length : Int)
        - (settle_first bet hm hs db0 children i).win_bonuses.sum ∧
    (settle_first bet hm hs db0 children (i + 1)).payouts
      = (settle_first bet hm hs db0 children i).payouts
        ++ [spec_payout bet hm hs
              (settle_first bet hm hs db0 children i).host_pool
              (children[i].2)] ∧
    settle_children bet hm hs db0 children
      = settle_first bet hm hs db0 children children.length := by
  refine ⟨?_, ?_, ?_, ?_⟩
  · have := settle_loop_payouts_len bet hm hs (children.take i)
      ⟨db0, bet * (children.length : Int), [], 0, 0, []⟩
    rw [settle_first, this]
    simp [List.length_take, Nat.le_of_lt hi]
  · have := (settle_loop_acct bet hm hs (children.take i)
      ⟨db0, bet * (children.length : Int), [], 0, 0, []⟩).1
    rw [settle_first]
    simp only [List.sum_nil] at this
    omega
  · have htake : children.take (i + 1) = children.take i ++ [children[i]] := by
      rw [List.take_succ]
      congr 1
      simp [List.getElem?_eq_getElem, hi]
    rw [settle_first, settle_first, htake, List.foldl_append]
    rcases hc : children[i].2 with _ | ⟨m, s⟩
    · simp [settle_step, hc, spec_payout]
    · cases ho : determine_outcome hm hs m s with
      | child_win => simp [settle_step, hc, ho, spec_payout]
      | host_win => simp [settle_step, hc, ho, spec_payout]
      | draw => simp [settle_step, hc, ho, spec_payout]
  · rw [settle_children, settle_first, List.take_length]

/-- C6 witness: the characterisation applied at roster position 0 of a
one-player round (bet 1000, miari 4 against a hachime host). -/
theorem pvp_payout_roster_order_witness :
    (settle_first 1000 (some 0) 0 ⟨[], []⟩ [(2, PRoll.rolled none 4)] 0).payouts.length = 0 ∧
    (settle_first 1000 (some 0) 0 ⟨[], []⟩ [(2, PRoll.rolled none 4)] 0).host_pool
      = 1000 * (([(2, PRoll.rolled none 4)] : List (Int × PRoll)).length : Int)
        - (settle_first 1000 (some 0) 0 ⟨[], []⟩
            [(2, PRoll.rolled none 4)] 0).win_bonuses.sum ∧
    (settle_first 1000 (some 0) 0 ⟨[], []⟩ [(2, PRoll.rolled none 4)] (0 + 1)).payouts
      = (settle_first 1000 (some 0) 0 ⟨[], []⟩ [(2, PRoll.rolled none 4)] 0).payouts
        ++ [spec_payout 1000 (some 0) 0
              (settle_first 1000 (some 0) 0 ⟨[], []⟩
                [(2, PRoll.rolled none 4)] 0).host_pool
              (PRoll.rolled none 4)] ∧
    settle_children 1000 (some 0) 0 ⟨[], []⟩ [(2, PRoll.rolled none 4)]
      = settle_first 1000 (some 0) 0 ⟨[], []⟩ [(2, PRoll.rolled none 4)]
          ([(2, PRoll.rolled none 4)] : List (Int × PRoll)).length :=
  pvp_payout_roster_order 1000 (some 0) 0 ⟨[], []⟩ [(2, PRoll.rolled none 4)] 0
    (by decide)

/-!
## Claim C7 — dice classification and the comparison order
-/

/-- Dice with faces in 1..6, indexed by `Fin 6`, as handed to
`judge_roll` (the source draws `random.randint(1, 6)` three times). -/
def diceOf (a b c : Fin 6) : List Int :=
  [(a.val : Int) + 1, (b.val : Int) + 1, (c.val : Int) + 1]

/-- The `(category, tiebreak)` pair of a dice triple: `score_rank`
applied to `judge_roll`'s `(mult, score)`. -/
def rank_of (dice : List Int) : Int × Int :=
  score_rank (judge_roll dice).2.2 (judge_roll dice).2.1

theorem tupLt_irrefl (p : Int × Int) : ¬ tupLt p p := by
  unfold tupLt
  omega

theorem tupLt_asymm_pair (p q : Int × Int) : ¬ (tupLt p q ∧ tupLt q p) := by
  unfold tupLt
  omega

theorem tupLt_trans (p q r : Int × Int) :
    tupLt p q → tupLt q r → tupLt p r := by
  unfold tupLt
  omega

theorem tupLt_connex (p q : Int × Int) : tupLt p q ∨ tupLt q p ∨ p = q := by
  by_cases h1 : tupLt p q
  · exact Or.inl h1
  by_cases h2 : tupLt q p
  · exact Or.inr (Or.inl h2)
  refine Or.inr (Or.inr ?_)
  unfold tupLt at h1 h2
  have he : p.1 = q.1 ∧ p.2 = q.2 := by omega
  exact Prod.ext he.1 he.2

theorem outcome_draw_iff (hm : Option Int) (hs : Int) (cm : Option Int)
    (cs : Int) :
    determine_outcome hm hs cm cs = Outcome.draw
      ↔ score_rank hm hs = score_rank cm cs := by
  by_cases h1 : tupLt (score_rank hm hs) (score_rank cm cs)
  · rw [determine_outcome]
    simp only [if_pos h1]
    constructor
    · intro hx
      exact absurd hx (by simp)
    · intro he
      exact absurd (he ▸ h1) (tupLt_irrefl _)
  · by_cases h2 : tupLt (score_rank cm cs) (score_rank hm hs)
    · rw [determine_outcome]
      simp only [if_neg h1, if_pos h2]
      constructor
      · intro hx
        exact absurd hx (by simp)
      · intro he
        exact absurd (he ▸ h2) (tupLt_irrefl _)
    · rw [determine_outcome]
      simp only [if_neg h1, if_neg h2]
      have he : score_rank hm hs = score_rank cm cs := by
        rcases tupLt_connex (score_rank hm hs) (score_rank cm cs) with h | h | h
        · exact absurd h h1
        · exact absurd h h2
        · exact h
      simp [he]

theorem outcome_swap (hm : Option Int) (hs : Int) (cm : Option Int)
    (cs : Int) :
    determine_outcome hm hs cm cs = Outcome.child_win
      ↔ determine_outcome cm cs hm hs = Outcome.host_win := by
  by_cases h1 : tupLt (score_rank hm hs) (score_rank cm cs)
  · have h2 : ¬ tupLt (score_rank cm cs) (score_rank hm hs) := by
      intro hx
      exact tupLt_asymm_pair _ _ ⟨h1, hx⟩
    rw [determine_outcome, determine_outcome]
    simp [h1, h2]
  · by_cases h2 : tupLt (score_rank cm cs) (score_rank hm hs)
    · rw [determine_outcome, determine_outcome]
      simp [h1, h2]
    · rw [determine_outcome, determine_outcome]
      simp [h1, h2]

/-- C7: dice classification and ordering.  Conjunct 1, over all 216
triples of faces in 1..6: (i) a triple of 1s scores `(100, some 5)`
(multiplier 5); (ii) any other triple scores
`(face * 10 + 50, some 3)` (multiplier 3, higher face beating lower);
(iii) the sorted 4-5-6 straight scores `(99, some 2)` (multiplier 2);
(iv) the sorted 1-2-3 straight is hifumi `(-1, some (-1))`; (v) a hand
with exactly two distinct faces has exactly one singleton face, which
becomes the score with multiplier `none` (effective PvP multiplier 1,
conjunct 5); (vi) three distinct faces not forming either straight are
non-decisive `(0, some 0)`; and exactly one of these six categories
holds for every triple.  Conjuncts 2-4: 1-2-3 ranks strictly below
every other hand (in particular below the non-decisive hand); between
two non-pinzoro triples the higher face wins; between two pair hands
the higher singleton wins.  Conjuncts 6-9: a comparison yields a draw
exactly when the `(category, tiebreak)` ranks are equal, a child win is
exactly a host win of the swapped comparison, and `tupLt` — the
comparison used by `determine_outcome` — is transitive, asymmetric and
total up to rank equality: a strict total preorder. -/
theorem dice_classification_and_order :
    (∀ a b c : Fin 6,
      (pySorted (diceOf a b c) = [1, 1, 1] →
        (judge_roll (diceOf a b c)).2 = (100, some 5)) ∧
      ((diceOf a b c).dedup.length = 1 ∧ pySorted (diceOf a b c) ≠ [1, 1, 1] →
        (judge_roll (diceOf a b c)).2
          = ((pySorted (diceOf a b c)).headD 0 * 10 + 50, some 3)) ∧
      (pySorted (diceOf a b c) = [4, 5, 6] →
        (judge_roll (diceOf a b c)).2 = (99, some 2)) ∧
      (pySorted (diceOf a b c) = [1, 2, 3] →
        (judge_roll (diceOf a b c)).2 = ((-1 : Int), some (-1))) ∧
      ((diceOf a b c).dedup.length = 2 →
        ((diceOf a b c).filter (fun v => (diceOf a b c).count v = 1)).length = 1 ∧
        (judge_roll (diceOf a b c)).2
          = (((diceOf a b c).filter
                (fun v => (diceOf a b c).count v = 1)).headD 0, none)) ∧
      ((diceOf a b c).dedup.length = 3 ∧ pySorted (diceOf a b c) ≠ [4, 5, 6] ∧
          pySorted (diceOf a b c) ≠ [1, 2, 3] →
        (judge_roll (diceOf a b c)).2 = (0, some 0)) ∧
      ([decide (pySorted (diceOf a b c) = [1, 1, 1]),
        decide ((diceOf a b c).dedup.length = 1 ∧
          pySorted (diceOf a b c) ≠ [1, 1, 1]),
        decide (pySorted (diceOf a b c) = [4, 5, 6]),
        decide ((diceOf a b c).dedup.length = 2),
        decide ((diceOf a b c).dedup.length = 3 ∧
          pySorted (diceOf a b c) ≠ [4, 5, 6] ∧
          pySorted (diceOf a b c) ≠ [1, 2, 3]),
        decide (pySorted (diceOf a b c) = [1, 2, 3])].count true = 1)) ∧
    (∀ a b c : Fin 6, pySorted (diceOf a b c) ≠ [1, 2, 3] →
      tupLt (rank_of [1, 2, 3]) (rank_of (diceOf a b c))) ∧
    (∀ a b : Fin 6, 0 < a.val → a.val < b.val →
      tupLt (rank_of (diceOf a a a)) (rank_of (diceOf b b b))) ∧
    (∀ x y u v : Fin 6, u ≠ x → v ≠ y → u.val < v.val →
      tupLt (rank_of (diceOf x x u)) (rank_of (diceOf y y v))) ∧
    pvp_payout_mult none = 1 ∧
    (∀ (hm cm : Option Int) (hs cs : Int),
      (determine_outcome hm hs cm cs = Outcome.draw
        ↔ score_rank hm hs = score_rank cm cs) ∧
      (determine_outcome hm hs cm cs = Outcome.child_win
        ↔ determine_outcome cm cs hm hs = Outcome.host_win)) ∧
    (∀ p q r : Int × Int, tupLt p q → tupLt q r → tupLt p r) ∧
    (∀ p q : Int × Int, ¬ (tupLt p q ∧ tupLt q p)) ∧
    (∀ p q : Int × Int, tupLt p q ∨ tupLt q p ∨ p = q) := by
  refine ⟨by decide, by decide, by decide, by decide, by decide, ?_,
    tupLt_trans, tupLt_asymm_pair, tupLt_connex⟩
  intro hm cm hs cs
  exact ⟨outcome_draw_iff hm hs cm cs, outcome_swap hm hs cm cs⟩

/-- C7 witness: the classification and order at concrete hands — the
pinzoro branch at 1-1-1, hifumi ranking below the non-decisive 1-2-4,
and transitivity at concrete rank pairs. -/
theorem dice_classification_and_order_witness :
    (judge_roll (diceOf 0 0 0)).2 = (100, some 5) ∧
    tupLt (rank_of [1, 2, 3]) (rank_of (diceOf 0 1 3)) ∧
    tupLt ((0 : Int), (0 : Int)) ((3 : Int), (80 : Int)) :=
  ⟨(dice_classification_and_order.1 0 0 0).1 (by decide),
   dice_classification_and_order.2.1 0 1 3 (by decide),
   dice_classification_and_order.2.2.2.2.2.2.1
     ((0 : Int), (0 : Int)) ((1 : Int), (4 : Int)) ((3 : Int), (80 : Int))
     (by decide) (by decide)⟩

/-!
## Claim C8 — the session phase machine
-/

/-- C8 (counterexample): a reachable event sequence re-enters
Recruiting after leaving it.  With balances where player 2 holds 100
(below `bet + venue_fee = 1030`), the host's start press moves the
session to Rolling, and the balance re-check of `_execute_pvp` then
runs `s.phase = "recruiting"` (line 2261): the session is back in
Recruiting, refuting the claim that no reachable transition re-enters
it. -/
theorem session_reenters_recruiting :
    runEvents Phase.recruiting [ChinEvent.start_pressed] = some Phase.rolling ∧
    runEvents Phase.recruiting
        [ChinEvent.start_pressed,
         ChinEvent.recheck
           (brokeCheck (fun u => if u = 2 then 100 else 5000) [1, 2] 1000 30)]
      = some Phase.recruiting := by
  refine ⟨by decide, by decide⟩

/-- C8 (amended): the phases follow Recruiting → Rolling, with Settled
(removal of the session from the registry) terminal, except for exactly
one back edge: the failed balance re-check at the top of
`_execute_pvp` returns the session from Rolling to Recruiting.  No
other transition re-enters Recruiting, nothing leaves Settled, and
every transition is among the listed pairs. -/
theorem phase_machine_amended (p q : Phase) (e : ChinEvent)
    (h : chinStep p e = some q) :
    (q = Phase.recruiting → p = Phase.rolling ∧ e = ChinEvent.recheck true) ∧
    p ≠ Phase.settled ∧
    (p = Phase.recruiting → q = Phase.rolling ∨ q = Phase.settled) ∧
    (p = Phase.rolling →
      q = Phase.rolling ∨ q = Phase.recruiting ∨ q = Phase.settled) := by
  cases p <;> cases q <;> rcases e with _ | b | _ | _ <;> first
    | (cases b <;> simp_all [chinStep])
    | simp_all [chinStep]

/-- C8 witness: the amended characterisation applied to the back edge
itself (Rolling, failed re-check). -/
theorem phase_machine_amended_witness :
    (Phase.recruiting = Phase.recruiting →
      Phase.rolling = Phase.rolling ∧
      ChinEvent.recheck true = ChinEvent.recheck true) ∧
    Phase.rolling ≠ Phase.settled ∧
    (Phase.rolling = Phase.recruiting →
      Phase.recruiting = Phase.rolling ∨ Phase.recruiting = Phase.settled) ∧
    (Phase.rolling = Phase.rolling →
      Phase.recruiting = Phase.rolling ∨ Phase.recruiting = Phase.recruiting ∨
      Phase.recruiting = Phase.settled) :=
  phase_machine_amended Phase.rolling Phase.recruiting
    (ChinEvent.recheck true) (by decide)

end Elysion
